import Mathlib

/-!
Verification of the hummingbird playback engine (rust) against its
natural-language specification.

The engine lives on a dedicated thread (src/src/playback/thread.rs,
struct PlaybackThread).  Below it is shallowly embedded as a pure state
machine: commands and the end-of-track event are functions from engine
state to engine state, with the event channel modelled as a growing list
of emitted events.  Abstractions used by the embedding, stated once here:

* Paths are opaque identifiers (Nat).  QueueItemData (playback/queue.rs)
  carries database ids and UI data besides its path, but every operation
  of the playback thread touches only get_path, so the embedding keeps
  only the path.
* Device and decoder plumbing is assumed healthy: file opens, decoder
  starts and stream resets succeed (their failure paths only log and
  return early).  The has_stream flag models the Option-ness of the
  output stream where the source branches on it (set_volume, play).
* Media durations are not modelled: open always emits DurationChanged 0
  (the source emits the real duration when known, 0 otherwise; no claim
  depends on the value).
* The decode position clock is modelled by the media_pos field: open
  resets it to 0, seek sets it, and it does not advance on its own.
  last_timestamp mirrors the u64 field of the source, whose initial
  value is the sentinel u64::MAX.
* The rng-driven shuffles are modelled by an explicit permutation
  oracle argument; the step relation quantifies over all oracles that
  permute their input.
* Operations on which the source panics (out-of-range Vec indexing,
  Option::unwrap on None) have no successor state in the step relation:
  the PanicFree side conditions below carve them out, and handler
  functions are totalised with List.getD only to stay executable.
-/

namespace Hummingbird

/-- File paths, abstracted to opaque identifiers. -/
abbrev Path := Nat

/-- From src/src/playback/queue.rs, struct QueueItemData: the playback
thread only ever reads get_path, so the embedding keeps only the path. -/
structure QueueItemData where
  path : Path
deriving DecidableEq

/-- From src/src/playback/thread.rs, enum PlaybackState. -/
inductive PlaybackState where
  | Stopped
  | Playing
  | Paused
deriving DecidableEq

/-- From src/src/playback/events.rs, enum RepeatState. -/
inductive RepeatState where
  | NotRepeating
  | Repeating
  | RepeatingOne
deriving DecidableEq

/-- From src/src/playback/events.rs, enum PlaybackEvent.  Metadata and
album-art payloads are not modelled (no claim concerns them); the f64
volume payload is modelled as a rational. -/
inductive PlaybackEvent where
  | StateChanged (state : PlaybackState)
  | SongChanged (path : Path)
  | DurationChanged (secs : Nat)
  | QueueUpdated
  | QueuePositionChanged (pos : Nat)
  | MetadataUpdate
  | AlbumArtUpdate
  | PositionChanged (secs : Nat)
  | ShuffleToggled (enabled : Bool) (pos : Nat)
  | RepeatChanged (state : RepeatState)
  | VolumeChanged (volume : Rat)
deriving DecidableEq

/-- From src/src/playback/events.rs, enum PlaybackCommand: all 21
variants, in source order.  The f64 payloads are modelled as rationals;
the MoveItem field names of the source are from/to (from is a Lean
keyword, hence src/dst here). -/
inductive PlaybackCommand where
  | Play
  | Pause
  | TogglePlayPause
  | Open (path : Path)
  | Queue (item : QueueItemData)
  | QueueList (items : List QueueItemData)
  | InsertAt (item : QueueItemData) (position : Nat)
  | InsertListAt (items : List QueueItemData) (position : Nat)
  | Next
  | Previous
  | ClearQueue
  | Jump (index : Nat)
  | JumpUnshuffled (index : Nat)
  | Seek (seconds : Rat)
  | SetVolume (volume : Rat)
  | ReplaceQueue (items : List QueueItemData)
  | Stop
  | ToggleShuffle
  | SetRepeat (state : RepeatState)
  | RemoveItem (index : Nat)
  | MoveItem (src : Nat) (dst : Nat)
deriving DecidableEq

/-- Modelled from the spec: struct PlaybackSettings (its declaring file
src/settings/playback.rs is not in the source tree; the two fields are
exactly those the playback thread reads).  always_repeat is the global
always-repeat setting that coerces SetRepeat(NotRepeating) back to
Repeating; prev_track_jump_first enables the restart-first behavior of
Previous. -/
structure PlaybackSettings where
  always_repeat : Bool
  prev_track_jump_first : Bool
deriving DecidableEq

/-- The u64::MAX sentinel with which last_timestamp starts. -/
def U64_MAX : Nat := 18446744073709551615

/-- From src/src/playback/thread.rs, struct PlaybackThread.  events is
the transcript of the event channel (events_tx); media_open is the path
of the currently open media stream, if any; media_pos models
position_secs of that stream. -/
structure PlaybackThread where
  playback_settings : PlaybackSettings
  state : PlaybackState
  queue : List QueueItemData
  original_queue : List QueueItemData
  shuffle : Bool
  queue_next : Nat
  last_timestamp : Nat
  pending_reset : Bool
  repeat_state : RepeatState
  has_stream : Bool
  media_open : Option Path
  media_pos : Nat
  events : List PlaybackEvent
deriving DecidableEq

/-- Appends one event to the transcript (a send on events_tx). -/
def emit (s : PlaybackThread) (e : PlaybackEvent) : PlaybackThread :=
  { s with events := s.events ++ [e] }

/-- PlaybackThread::update_ts (thread.rs:672-686): emit PositionChanged
if the position differs from last_timestamp, then record it. -/
def update_ts (s : PlaybackThread) : PlaybackThread :=
  match s.media_open with
  | none => s
  | some _ =>
    if s.media_pos = s.last_timestamp then s
    else
      let s := emit s (.PositionChanged s.media_pos)
      { s with last_timestamp := s.media_pos }

/-- PlaybackThread::open (thread.rs:408-507), happy path: closes the old
media stream, opens and starts the new one, emits SongChanged and
DurationChanged, transitions to Playing, runs update_ts and emits
StateChanged(Playing). Device recreation on channel mismatch does not
change any modelled field. -/
def openTrack (s : PlaybackThread) (path : Path) : PlaybackThread :=
  let s := { s with media_open := none }
  let s := emit s (.SongChanged path)
  let s := emit s (.DurationChanged 0)
  let s := { s with media_open := some path, state := .Playing, media_pos := 0 }
  let s := update_ts s
  emit s (.StateChanged .Playing)

/-- PlaybackThread::stop (thread.rs:772-783): closes the media stream,
transitions to Stopped, emits StateChanged(Stopped). It does not touch
the queue or queue_next. -/
def stop (s : PlaybackThread) : PlaybackThread :=
  let s := { s with media_open := none, state := .Stopped }
  emit s (.StateChanged .Stopped)

/-- PlaybackThread::pause (thread.rs:320-338). -/
def pause (s : PlaybackThread) : PlaybackThread :=
  if s.state = .Paused then s
  else if s.state = .Playing then
    emit { s with state := .Paused } (.StateChanged .Paused)
  else s

/-- PlaybackThread::play (thread.rs:341-405): resume from Paused
(consuming a pending reset when a stream exists), or restart the queue
from index 0 when Stopped and the queue is non-empty. -/
def play (s : PlaybackThread) : PlaybackThread :=
  if s.state = .Playing then s
  else
    let s1 :=
      if s.state = .Paused then
        let sa := if s.has_stream then { s with pending_reset := false } else s
        emit { sa with state := .Playing } (.StateChanged .Playing)
      else s
    match s1.queue with
    | [] => s1
    | q0 :: _ =>
      if s1.state = .Stopped then
        let s2 := openTrack s1 q0.path
        let s3 := emit s2 (.QueuePositionChanged 0)
        { s3 with queue_next := 1 }
      else s1

/-- PlaybackThread::toggle_play_pause (thread.rs:876-882). -/
def toggle_play_pause (s : PlaybackThread) : PlaybackThread :=
  match s.state with
  | .Playing => pause s
  | .Paused => play s
  | .Stopped => s

/-- PlaybackThread::seek (thread.rs:689-695): seek the media stream,
mark a pending stream reset, run update_ts. -/
def seek (s : PlaybackThread) (timestamp : Rat) : PlaybackThread :=
  match s.media_open with
  | none => s
  | some _ =>
    let s := { s with media_pos := timestamp.floor.toNat, pending_reset := true }
    update_ts s

/-- PlaybackThread::jump (thread.rs:698-713): open the item at the given
index when it is in range, set queue_next to index + 1, emit
QueuePositionChanged. -/
def jump (s : PlaybackThread) (index : Nat) : PlaybackThread :=
  if index < s.queue.length then
    let path := (s.queue.getD index ⟨0⟩).path
    let s := openTrack s path
    let s := { s with queue_next := index + 1 }
    emit s (.QueuePositionChanged index)
  else s

/-- PlaybackThread::jump_unshuffled (thread.rs:717-731): resolve the
index through original_queue, locate that path in the shuffled queue,
jump there.  The source indexes original_queue unconditionally; the
PanicFree side condition keeps that in range. -/
def jump_unshuffled (s : PlaybackThread) (index : Nat) : PlaybackThread :=
  if s.shuffle = false then jump s index
  else
    let path := (s.original_queue.getD index ⟨0⟩).path
    match s.queue.findIdx? (fun a => a.path == path) with
    | some pos => jump s pos
    | none => s

/-- PlaybackThread::next (thread.rs:510-554).  user_initiated is true
for the Next command, false for end-of-track.  The permutation oracle
sigma stands for the rng reshuffle on queue repeat. -/
def next (s : PlaybackThread) (user_initiated : Bool)
    (sigma : List QueueItemData → List QueueItemData) : PlaybackThread :=
  if s.repeat_state = .RepeatingOne then
    openTrack s (s.queue.getD (s.queue_next - 1) ⟨0⟩).path
  else if s.queue_next < s.queue.length then
    let path := (s.queue.getD s.queue_next ⟨0⟩).path
    let s1 := openTrack s path
    let s2 := emit s1 (.QueuePositionChanged s1.queue_next)
    { s2 with queue_next := s2.queue_next + 1 }
  else if user_initiated = false then
    if s.repeat_state = .Repeating then
      let s1 :=
        if s.shuffle then emit { s with queue := sigma s.queue } .QueueUpdated
        else s
      jump s1 0
    else stop s
  else s

/-- PlaybackThread::previous (thread.rs:557-595). -/
def previous (s : PlaybackThread) : PlaybackThread :=
  if s.state = .Playing ∧ s.playback_settings.prev_track_jump_first = true ∧
      5 < s.last_timestamp then
    seek s 0
  else if s.state = .Stopped ∧ s.queue ≠ [] then
    let path := (s.queue.getLastD ⟨0⟩).path
    let s1 := { s with queue_next := s.queue.length }
    let s2 := openTrack s1 path
    emit s2 (.QueuePositionChanged (s2.queue_next - 1))
  else if 1 < s.queue_next then
    let path := (s.queue.getD (s.queue_next - 2) ⟨0⟩).path
    let s1 := emit s (.QueuePositionChanged (s.queue_next - 2))
    let s2 := { s1 with queue_next := s1.queue_next - 1 }
    openTrack s2 path
  else s

/-- PlaybackThread::queue (thread.rs:598-627): push the item (also onto
original_queue under shuffle); if Stopped, open it and point queue_next
after it. -/
def queue_add (s : PlaybackThread) (item : QueueItemData) : PlaybackThread :=
  let pre_len := s.queue.length
  let s1 := { s with queue := s.queue ++ [item] }
  let s2 :=
    if s1.shuffle then { s1 with original_queue := s1.original_queue ++ [item] }
    else s1
  let s3 :=
    if s2.state = .Stopped then
      let sa := openTrack s2 item.path
      let sb := { sa with queue_next := pre_len + 1 }
      emit sb (.QueuePositionChanged pre_len)
    else s2
  emit s3 .QueueUpdated

/-- PlaybackThread::queue_list (thread.rs:631-669): append the list
(shuffled copy under shuffle, originals onto original_queue); if Stopped
and the list is non-empty, open its first item. -/
def queue_list (s : PlaybackThread) (paths : List QueueItemData)
    (sigma : List QueueItemData → List QueueItemData) : PlaybackThread :=
  let pre_len := s.queue.length
  let first := paths.head?
  let s1 :=
    if s.shuffle then
      { s with queue := s.queue ++ sigma paths,
               original_queue := s.original_queue ++ paths }
    else { s with queue := s.queue ++ paths }
  let s2 :=
    match first with
    | some f =>
      if s1.state = .Stopped then
        let sa := openTrack s1 f.path
        let sb := { sa with queue_next := pre_len + 1 }
        emit sb (.QueuePositionChanged pre_len)
      else s1
    | none => s1
  emit s2 .QueueUpdated

/-- PlaybackThread::replace_queue (thread.rs:734-758): install the new
queue (shuffled under shuffle, originals into original_queue), reset
queue_next, jump to index 0. -/
def replace_queue (s : PlaybackThread) (paths : List QueueItemData)
    (sigma : List QueueItemData → List QueueItemData) : PlaybackThread :=
  let s1 :=
    if s.shuffle then { s with queue := sigma paths, original_queue := paths }
    else { s with queue := paths }
  let s2 := { s1 with queue_next := 0 }
  let s3 := jump s2 0
  emit s3 .QueueUpdated

/-- PlaybackThread::clear_queue (thread.rs:761-770): empty both queues,
reset queue_next, emit QueuePositionChanged 0 and QueueUpdated.  It does
not stop playback or close the media stream. -/
def clear_queue (s : PlaybackThread) : PlaybackThread :=
  let s1 := { s with queue := [], original_queue := [], queue_next := 0 }
  emit (emit s1 (.QueuePositionChanged 0)) .QueueUpdated

/-- PlaybackThread::toggle_shuffle (thread.rs:786-835).  Turning on:
copy the queue into original_queue and shuffle the unplayed tail (from
queue_next on).  Turning off: relocate the current item in
original_queue, restore it as the queue, clear original_queue. -/
def toggle_shuffle (s : PlaybackThread)
    (sigma : List QueueItemData → List QueueItemData) : PlaybackThread :=
  if s.shuffle then
    let index :=
      if 0 < s.queue_next then
        s.original_queue.findIdx
          (fun x => x.path == (s.queue.getD (s.queue_next - 1) ⟨0⟩).path)
      else 0
    let qn := if 0 < s.queue_next then index + 1 else s.queue_next
    let s1 := { s with queue := s.original_queue, original_queue := [],
                       shuffle := false, queue_next := qn }
    let s2 := emit (emit s1 (.ShuffleToggled false index)) .QueueUpdated
    if index ≠ 0 then emit s2 (.QueuePositionChanged index) else s2
  else
    let qn := s.queue_next
    let s1 := { s with original_queue := s.queue,
                       queue := s.queue.take qn ++ sigma (s.queue.drop qn),
                       shuffle := true }
    emit (emit s1 (.ShuffleToggled true qn)) .QueueUpdated

/-- PlaybackThread::set_volume (thread.rs:838-858), queue-level view:
when a stream exists, the VolumeChanged event carries the raw value.
The scaled value handed to the stream is real-valued and is modelled
separately below (volume_scaled). -/
def set_volume_cmd (s : PlaybackThread) (volume : Rat) : PlaybackThread :=
  if s.has_stream then emit s (.VolumeChanged volume) else s

/-- PlaybackThread::set_repeat (thread.rs:862-873): store the commanded
state, coercing NotRepeating to Repeating under the always-repeat
setting; the RepeatChanged event carries the commanded state. -/
def set_repeat (s : PlaybackThread) (state : RepeatState) : PlaybackThread :=
  let s1 := { s with repeat_state :=
    if state = .NotRepeating ∧ s.playback_settings.always_repeat = true then
      .Repeating
    else state }
  emit s1 (.RepeatChanged state)

/-- PlaybackThread::play_audio end-of-track path (thread.rs:969-983):
both Eof and DecodeFatal run next(user_initiated = false). -/
def handleTrackEnd (s : PlaybackThread)
    (sigma : List QueueItemData → List QueueItemData) : PlaybackThread :=
  next s false sigma

/-- Which PlaybackCommand variants have a match arm in
PlaybackThread::command_intake (thread.rs:290-317).  The four variants
InsertAt, InsertListAt, RemoveItem and MoveItem are declared in
events.rs and (RemoveItem) even sent by PlaybackInterface::remove_item,
but the intake match has no arm for them. -/
def hasIntakeArm : PlaybackCommand → Bool
  | .InsertAt _ _ => false
  | .InsertListAt _ _ => false
  | .RemoveItem _ => false
  | .MoveItem _ _ => false
  | _ => true

/-- PlaybackThread::command_intake (thread.rs:290-317), one received
command: dispatch to the handler for that variant.  none for the four
variants that have no match arm in the source. -/
def dispatch (s : PlaybackThread) (c : PlaybackCommand)
    (sigma : List QueueItemData → List QueueItemData) :
    Option PlaybackThread :=
  match c with
  | .Play => some (play s)
  | .Pause => some (pause s)
  | .TogglePlayPause => some (toggle_play_pause s)
  | .Open path => some (openTrack s path)
  | .Queue item => some (queue_add s item)
  | .QueueList items => some (queue_list s items sigma)
  | .InsertAt _ _ => none
  | .InsertListAt _ _ => none
  | .Next => some (next s true sigma)
  | .Previous => some (previous s)
  | .ClearQueue => some (clear_queue s)
  | .Jump index => some (jump s index)
  | .JumpUnshuffled index => some (jump_unshuffled s index)
  | .Seek seconds => some (seek s seconds)
  | .SetVolume volume => some (set_volume_cmd s volume)
  | .ReplaceQueue items => some (replace_queue s items sigma)
  | .Stop => some (stop s)
  | .ToggleShuffle => some (toggle_shuffle s sigma)
  | .SetRepeat state => some (set_repeat s state)
  | .RemoveItem _ => none
  | .MoveItem _ _ => none

/-- Thread startup state (PlaybackThread::start, thread.rs:126-168),
with the queue the interface was created over and has_stream = true
modelling a successful initial recreate_stream. -/
def initialState (settings : PlaybackSettings) (q0 : List QueueItemData) :
    PlaybackThread :=
  { playback_settings := settings
    state := .Stopped
    queue := q0
    original_queue := []
    shuffle := false
    queue_next := 0
    last_timestamp := U64_MAX
    pending_reset := false
    repeat_state := if settings.always_repeat then .Repeating else .NotRepeating
    has_stream := true
    media_open := none
    media_pos := 0
    events := [] }

/-- Side condition for next: the RepeatingOne branch indexes
queue[queue_next - 1] unconditionally, panicking when out of range or
when queue_next = 0 (usize underflow). -/
def NextPanicFree (s : PlaybackThread) : Prop :=
  s.repeat_state = .RepeatingOne →
    0 < s.queue_next ∧ s.queue_next - 1 < s.queue.length

/-- States and commands on which the source panics instead of stepping:
out-of-range Vec indexing and Option::unwrap on None.  These inputs
have no successor state. -/
def PanicFree (s : PlaybackThread) : PlaybackCommand → Prop
  | .Next => NextPanicFree s
  | .Previous =>
    ¬(s.state = .Playing ∧ s.playback_settings.prev_track_jump_first = true ∧
        5 < s.last_timestamp) →
      ¬(s.state = .Stopped ∧ s.queue ≠ []) →
        1 < s.queue_next → s.queue_next - 2 < s.queue.length
  | .ToggleShuffle =>
    if s.shuffle then
      0 < s.queue_next →
        s.queue_next - 1 < s.queue.length ∧
          (s.queue.getD (s.queue_next - 1) ⟨0⟩).path ∈
            s.original_queue.map (fun x => x.path)
    else s.queue_next ≤ s.queue.length
  | .JumpUnshuffled index => s.shuffle = true → index < s.original_queue.length
  | _ => True

/-- One engine step: a processed command (thread.rs:290-317) or an
end-of-track event observed while playing (thread.rs:969-983).  The
shuffle oracle ranges over all permutations. -/
inductive Step : PlaybackThread → PlaybackThread → Prop where
  | cmd {s s' : PlaybackThread} (c : PlaybackCommand)
      (sigma : List QueueItemData → List QueueItemData)
      (hsigma : ∀ l, (sigma l).Perm l)
      (hpf : PanicFree s c)
      (h : dispatch s c sigma = some s') : Step s s'
  | eof {s : PlaybackThread}
      (sigma : List QueueItemData → List QueueItemData)
      (hsigma : ∀ l, (sigma l).Perm l)
      (hplay : s.state = .Playing)
      (hmedia : s.media_open.isSome)
      (hpf : NextPanicFree s) : Step s (handleTrackEnd s sigma)

/-- States reachable from thread startup by commands and end-of-track
events. -/
inductive Reachable (settings : PlaybackSettings) (q0 : List QueueItemData) :
    PlaybackThread → Prop where
  | init : Reachable settings q0 (initialState settings q0)
  | step {s s' : PlaybackThread} (hr : Reachable settings q0 s)
      (hs : Step s s') : Reachable settings q0 s'

/-- The commands under which the queue-pointer invariant is not
preserved by the source: Open never touches the queue or queue_next;
ClearQueue and ReplaceQueue([]) leave the media stream open with an
empty or cleared pointer; QueueList while Stopped under shuffle opens
the first item of the unshuffled list while pointing after the first
item of the shuffled copy. -/
def PointerHazard (s : PlaybackThread) : PlaybackCommand → Prop
  | .Open _ => True
  | .ClearQueue => True
  | .ReplaceQueue items => items = []
  | .QueueList items => items ≠ [] ∧ s.shuffle = true ∧ s.state = .Stopped
  | _ => False

/-- Engine steps excluding the pointer-hazard commands. -/
inductive SafeStep : PlaybackThread → PlaybackThread → Prop where
  | cmd {s s' : PlaybackThread} (c : PlaybackCommand)
      (sigma : List QueueItemData → List QueueItemData)
      (hsigma : ∀ l, (sigma l).Perm l)
      (hpf : PanicFree s c)
      (hsafe : ¬ PointerHazard s c)
      (h : dispatch s c sigma = some s') : SafeStep s s'
  | eof {s : PlaybackThread}
      (sigma : List QueueItemData → List QueueItemData)
      (hsigma : ∀ l, (sigma l).Perm l)
      (hplay : s.state = .Playing)
      (hmedia : s.media_open.isSome)
      (hpf : NextPanicFree s) : SafeStep s (handleTrackEnd s sigma)

/-- States reachable from thread startup using only pointer-safe steps. -/
inductive ReachableSafe (settings : PlaybackSettings)
    (q0 : List QueueItemData) : PlaybackThread → Prop where
  | init : ReachableSafe settings q0 (initialState settings q0)
  | step {s s' : PlaybackThread} (hr : ReachableSafe settings q0 s)
      (hs : SafeStep s s') : ReachableSafe settings q0 s'

/-- The queue-pointer invariant: when a track is open, queue_next is
positive and the item just before it in the queue is the open track;
queue_next never exceeds the queue length. -/
def QueuePointerInv (s : PlaybackThread) : Prop :=
  (s.media_open = none ∨
    (0 < s.queue_next ∧
      (s.queue[s.queue_next - 1]?).map (fun x => x.path) = s.media_open))
  ∧ s.queue_next ≤ s.queue.length

instance (s : PlaybackThread) : Decidable (QueuePointerInv s) := by
  unfold QueuePointerInv; infer_instance

/-! Real-valued volume model.  PlaybackThread::set_volume
(thread.rs:838-858) computes the perceptual volume curve in f64,
embedded here over the reals. -/

/-- Constant LN_50 (thread.rs:121). -/
noncomputable def LN_50 : ℝ := 3.91202300543

/-- Constant LINEAR_SCALING_COEFFICIENT (thread.rs:122). -/
noncomputable def LINEAR_SCALING_COEFFICIENT : ℝ := 0.295751527165

/-- The volume curve of set_volume (thread.rs:840-846): 1 for inputs at
least 0.99, an exponential taper above 0.1, a linear floor below. -/
noncomputable def volume_scaled (volume : ℝ) : ℝ :=
  if 0.99 ≤ volume then 1
  else if 0.1 < volume then Real.exp (LN_50 * volume) / 50
  else volume * LINEAR_SCALING_COEFFICIENT

/-- The stream-facing fields touched by set_volume: the Option-ness of
the output stream, the last_volume field of PlaybackThread, the volume
field of the stream (what OutputStream::set_volume receives), and the
transcript of VolumeChanged payloads. -/
structure VolumeCtx where
  has_stream : Bool
  last_volume : ℝ
  stream_volume : ℝ
  volume_events : List ℝ

/-- PlaybackThread::set_volume (thread.rs:838-858), stream-level view:
when a stream exists, store and hand the stream the scaled value and
emit the raw value; otherwise do nothing. -/
noncomputable def set_volume_stream (c : VolumeCtx) (volume : ℝ) : VolumeCtx :=
  if c.has_stream then
    { c with last_volume := volume_scaled volume
             stream_volume := volume_scaled volume
             volume_events := c.volume_events ++ [volume] }
  else c

/-! Hardware audio callback model.  create_stream_internal
(src/src/devices/builtin/cpal.rs:98-121) builds the cpal data callback:
read from the SPSC ring buffer into the destination, then overwrite the
unwritten tail with the muted value of the sample type.  The element
type and its muted value are abstract here (the Mute impls live in
media/playback.rs, outside the provided sources); the ring buffer read
(rb crate) fills as much of the destination as is available, never
blocks, and reports 0 on an empty buffer (the unwrap_or(0)). -/

/-- Number of elements the ring-buffer read returns for a destination
of length n with the given buffered elements. -/
def ringReadCount (avail : List α) (n : Nat) : Nat :=
  min n avail.length

/-- Buffered elements remaining after the callback consumed its read. -/
def ringReadRest (avail : List α) (n : Nat) : List α :=
  avail.drop n

/-- The destination buffer after the cpal data callback
(cpal.rs:111-115): the elements the read produced, then the muted value
in every remaining slot. -/
def cpalCallbackFill (muted : α) (avail : List α) (n : Nat) : List α :=
  avail.take (ringReadCount avail n)
    ++ List.replicate (n - ringReadCount avail n) muted

/-- Spec scenario setup: queue [A, B, C] as paths 1, 2, 3, repeat off,
shuffle off, then the Play command. -/
def scenarioStart : PlaybackThread :=
  play (initialState ⟨false, false⟩ [⟨1⟩, ⟨2⟩, ⟨3⟩])

/-- Spec scenario: three consecutive end-of-track events after Play. -/
def scenarioEnd : PlaybackThread :=
  handleTrackEnd (handleTrackEnd (handleTrackEnd scenarioStart id) id) id

/-! Projection helper lemmas: emit only appends to the transcript,
update_ts only touches the transcript and last_timestamp, openTrack
only changes the media fields, state and transcript. -/

@[simp] theorem emit_queue (s : PlaybackThread) (e : PlaybackEvent) :
    (emit s e).queue = s.queue := rfl

@[simp] theorem emit_original_queue (s : PlaybackThread) (e : PlaybackEvent) :
    (emit s e).original_queue = s.original_queue := rfl

@[simp] theorem emit_queue_next (s : PlaybackThread) (e : PlaybackEvent) :
    (emit s e).queue_next = s.queue_next := rfl

@[simp] theorem emit_state (s : PlaybackThread) (e : PlaybackEvent) :
    (emit s e).state = s.state := rfl

@[simp] theorem emit_media_open (s : PlaybackThread) (e : PlaybackEvent) :
    (emit s e).media_open = s.media_open := rfl

@[simp] theorem emit_shuffle (s : PlaybackThread) (e : PlaybackEvent) :
    (emit s e).shuffle = s.shuffle := rfl

@[simp] theorem emit_repeat_state (s : PlaybackThread) (e : PlaybackEvent) :
    (emit s e).repeat_state = s.repeat_state := rfl

@[simp] theorem emit_playback_settings (s : PlaybackThread) (e : PlaybackEvent) :
    (emit s e).playback_settings = s.playback_settings := rfl

@[simp] theorem emit_has_stream (s : PlaybackThread) (e : PlaybackEvent) :
    (emit s e).has_stream = s.has_stream := rfl

@[simp] theorem emit_events (s : PlaybackThread) (e : PlaybackEvent) :
    (emit s e).events = s.events ++ [e] := rfl

@[simp] theorem update_ts_queue (s : PlaybackThread) :
    (update_ts s).queue = s.queue := by
  unfold update_ts
  cases s.media_open <;> dsimp only
  split <;> rfl

@[simp] theorem update_ts_original_queue (s : PlaybackThread) :
    (update_ts s).original_queue = s.original_queue := by
  unfold update_ts
  cases s.media_open <;> dsimp only
  split <;> rfl

@[simp] theorem update_ts_queue_next (s : PlaybackThread) :
    (update_ts s).queue_next = s.queue_next := by
  unfold update_ts
  cases s.media_open <;> dsimp only
  split <;> rfl

@[simp] theorem update_ts_state (s : PlaybackThread) :
    (update_ts s).state = s.state := by
  unfold update_ts
  cases s.media_open <;> dsimp only
  split <;> rfl

@[simp] theorem update_ts_media_open (s : PlaybackThread) :
    (update_ts s).media_open = s.media_open := by
  unfold update_ts
  cases h : s.media_open
  · exact h
  · dsimp only
    split
    · exact h
    · exact h

@[simp] theorem update_ts_shuffle (s : PlaybackThread) :
    (update_ts s).shuffle = s.shuffle := by
  unfold update_ts
  cases s.media_open <;> dsimp only
  split <;> rfl

@[simp] theorem update_ts_repeat_state (s : PlaybackThread) :
    (update_ts s).repeat_state = s.repeat_state := by
  unfold update_ts
  cases s.media_open <;> dsimp only
  split <;> rfl

@[simp] theorem update_ts_playback_settings (s : PlaybackThread) :
    (update_ts s).playback_settings = s.playback_settings := by
  unfold update_ts
  cases s.media_open <;> dsimp only
  split <;> rfl

@[simp] theorem update_ts_has_stream (s : PlaybackThread) :
    (update_ts s).has_stream = s.has_stream := by
  unfold update_ts
  cases s.media_open <;> dsimp only
  split <;> rfl

@[simp] theorem openTrack_queue (s : PlaybackThread) (p : Path) :
    (openTrack s p).queue = s.queue := by
  simp [openTrack]

@[simp] theorem openTrack_original_queue (s : PlaybackThread) (p : Path) :
    (openTrack s p).original_queue = s.original_queue := by
  simp [openTrack]

@[simp] theorem openTrack_queue_next (s : PlaybackThread) (p : Path) :
    (openTrack s p).queue_next = s.queue_next := by
  simp [openTrack]

@[simp] theorem openTrack_state (s : PlaybackThread) (p : Path) :
    (openTrack s p).state = .Playing := by
  simp [openTrack]

@[simp] theorem openTrack_media_open (s : PlaybackThread) (p : Path) :
    (openTrack s p).media_open = some p := by
  simp [openTrack]

@[simp] theorem openTrack_shuffle (s : PlaybackThread) (p : Path) :
    (openTrack s p).shuffle = s.shuffle := by
  simp [openTrack]

@[simp] theorem openTrack_repeat_state (s : PlaybackThread) (p : Path) :
    (openTrack s p).repeat_state = s.repeat_state := by
  simp [openTrack]

@[simp] theorem openTrack_playback_settings (s : PlaybackThread) (p : Path) :
    (openTrack s p).playback_settings = s.playback_settings := by
  simp [openTrack]

@[simp] theorem openTrack_has_stream (s : PlaybackThread) (p : Path) :
    (openTrack s p).has_stream = s.has_stream := by
  simp [openTrack]

theorem toggle_shuffle_on_fields (s : PlaybackThread)
    (sigma : List QueueItemData → List QueueItemData)
    (h : s.shuffle = false) :
    (toggle_shuffle s sigma).shuffle = true ∧
    (toggle_shuffle s sigma).original_queue = s.queue ∧
    (toggle_shuffle s sigma).queue
      = s.queue.take s.queue_next ++ sigma (s.queue.drop s.queue_next) ∧
    (toggle_shuffle s sigma).queue_next = s.queue_next ∧
    (toggle_shuffle s sigma).media_open = s.media_open ∧
    (toggle_shuffle s sigma).state = s.state := by
  unfold toggle_shuffle
  rw [h]
  simp

theorem toggle_shuffle_off_fields (s : PlaybackThread)
    (sigma : List QueueItemData → List QueueItemData)
    (h : s.shuffle = true) :
    (toggle_shuffle s sigma).queue = s.original_queue ∧
    (toggle_shuffle s sigma).shuffle = false ∧
    (toggle_shuffle s sigma).original_queue = [] ∧
    (toggle_shuffle s sigma).media_open = s.media_open ∧
    (toggle_shuffle s sigma).state = s.state := by
  unfold toggle_shuffle
  rw [if_pos h]
  dsimp only
  refine ⟨?_, ?_, ?_, ?_, ?_⟩ <;> split <;> (try split) <;> rfl

/-! Claim theorems. -/

/-- C1 counterexample: processing Stop on a state whose shared queue
holds one item leaves the queue non-empty, so Stop does not clear the
play queue. -/
theorem stop_clears_queue_cex :
    dispatch (initialState ⟨false, false⟩ [⟨5⟩]) .Stop id
      = some (stop (initialState ⟨false, false⟩ [⟨5⟩])) ∧
    (stop (initialState ⟨false, false⟩ [⟨5⟩])).queue ≠ [] := by
  decide

/-- C1 (amended): processing a Stop command closes the media stream,
transitions the playback state to Stopped and emits exactly
StateChanged(Stopped); the shared queue and the queue pointer are left
unchanged (clearing the queue is the separate ClearQueue command). -/
theorem stop_transitions_only (s : PlaybackThread) :
    (stop s).state = .Stopped ∧
    (stop s).media_open = none ∧
    (stop s).events = s.events ++ [.StateChanged .Stopped] ∧
    (stop s).queue = s.queue ∧
    (stop s).queue_next = s.queue_next := by
  simp [stop]

/-- C2: the command intake dispatches a received command to a handler
exactly when the variant has a match arm, and the four declared
variants InsertAt, InsertListAt, RemoveItem and MoveItem have none, so
they are never processed (RemoveItem is even sent by
PlaybackInterface::remove_item). -/
theorem command_intake_missing_arms :
    (∀ (s : PlaybackThread)
        (sigma : List QueueItemData → List QueueItemData)
        (c : PlaybackCommand),
      (dispatch s c sigma).isSome = hasIntakeArm c) ∧
    hasIntakeArm (.RemoveItem 0) = false ∧
    hasIntakeArm (.InsertAt ⟨0⟩ 0) = false ∧
    hasIntakeArm (.InsertListAt [] 0) = false ∧
    hasIntakeArm (.MoveItem 0 1) = false := by
  refine ⟨fun s sigma c => ?_, rfl, rfl, rfl, rfl⟩
  cases c <;> rfl

/-- C4 counterexample: in a Playing state at the last queue item with
repeat off, a user-initiated Next leaves the state Playing instead of
transitioning to Stopped. -/
theorem next_last_item_cex :
    (play (initialState ⟨false, false⟩ [⟨1⟩])).state = .Playing ∧
    (play (initialState ⟨false, false⟩ [⟨1⟩])).queue_next = 1 ∧
    (play (initialState ⟨false, false⟩ [⟨1⟩])).queue.length = 1 ∧
    (play (initialState ⟨false, false⟩ [⟨1⟩])).repeat_state = .NotRepeating ∧
    dispatch (play (initialState ⟨false, false⟩ [⟨1⟩])) .Next id
      = some (play (initialState ⟨false, false⟩ [⟨1⟩])) ∧
    (play (initialState ⟨false, false⟩ [⟨1⟩])).state ≠ .Stopped := by
  decide

/-- C4 (amended): a user-initiated Next while the current track is the
last queue item and repeat is NotRepeating is a complete no-op: the
engine state, including playback state and transcript, is unchanged
(only end-of-track advancement stops playback there). -/
theorem next_user_at_end_noop (s : PlaybackThread)
    (sigma : List QueueItemData → List QueueItemData)
    (h1 : s.repeat_state = .NotRepeating)
    (h2 : s.queue.length ≤ s.queue_next) :
    next s true sigma = s := by
  unfold next
  rw [if_neg (by simp [h1]), if_neg (Nat.not_lt.mpr h2),
    if_neg (by simp)]

/-- C4 witness. -/
theorem next_user_at_end_noop_witness :
    next (play (initialState ⟨false, false⟩ [⟨1⟩])) true id
      = play (initialState ⟨false, false⟩ [⟨1⟩]) :=
  next_user_at_end_noop _ id (by decide) (by decide)

/-- C9: every element of the destination buffer not filled by the
ring-buffer read is set to the muted value; with an empty buffer the
whole destination is silence-filled, 0 elements are read and the buffer
is left with nothing consumed. -/
theorem callback_silence_fill {α : Type} (muted : α) (avail : List α)
    (n : Nat) :
    (cpalCallbackFill muted avail n).length = n ∧
    (cpalCallbackFill muted avail n).drop (ringReadCount avail n)
      = List.replicate (n - ringReadCount avail n) muted ∧
    cpalCallbackFill muted [] n = List.replicate n muted ∧
    ringReadCount ([] : List α) n = 0 ∧
    ringReadRest ([] : List α) n = [] := by
  have hlen : (avail.take (ringReadCount avail n)).length
      = ringReadCount avail n := by
    rw [List.length_take]
    unfold ringReadCount
    omega
  refine ⟨?_, ?_, ?_, ?_, ?_⟩
  · simp only [cpalCallbackFill, List.length_append, hlen,
      List.length_replicate]
    unfold ringReadCount
    omega
  · simp only [cpalCallbackFill]
    exact List.drop_left' hlen
  · simp [cpalCallbackFill, ringReadCount]
  · simp [ringReadCount]
  · simp [ringReadRest]

/-- C10: after SetRepeat(v) the RepeatChanged event always carries the
commanded state v, while the internal repeat mode is the coerced value;
under the always-repeat setting a commanded NotRepeating leaves the
engine Repeating while controllers are told NotRepeating. -/
theorem set_repeat_event_raw (s : PlaybackThread) (v : RepeatState) :
    (set_repeat s v).events = s.events ++ [.RepeatChanged v] ∧
    (set_repeat s v).repeat_state =
      (if v = .NotRepeating ∧ s.playback_settings.always_repeat = true then
        .Repeating
      else v) ∧
    (s.playback_settings.always_repeat = true →
      (set_repeat s .NotRepeating).repeat_state = .Repeating ∧
      (set_repeat s .NotRepeating).events
        = s.events ++ [.RepeatChanged .NotRepeating]) := by
  refine ⟨by simp [set_repeat], by simp [set_repeat], fun h => ?_⟩
  simp [set_repeat, h]

/-- C10 witness. -/
theorem set_repeat_event_raw_witness :
    (set_repeat (initialState ⟨true, false⟩ []) .NotRepeating).repeat_state
        = .Repeating ∧
      (set_repeat (initialState ⟨true, false⟩ []) .NotRepeating).events
        = (initialState ⟨true, false⟩ []).events
          ++ [.RepeatChanged .NotRepeating] :=
  (set_repeat_event_raw (initialState ⟨true, false⟩ [])
    .NotRepeating).2.2 rfl

/-- C7: while a stream exists, SetVolume hands the stream the scaled
value and broadcasts the raw value; the curve is 1 above 0.99, the
exponential taper between 0.1 and 0.99, and the linear floor below;
in particular 0.05 is scaled by the linear coefficient. -/
theorem set_volume_scaled_vs_raw (c : VolumeCtx) (v : ℝ)
    (h : c.has_stream = true) :
    (set_volume_stream c v).stream_volume = volume_scaled v ∧
    (set_volume_stream c v).last_volume = volume_scaled v ∧
    (set_volume_stream c v).volume_events = c.volume_events ++ [v] ∧
    (0.99 ≤ v → volume_scaled v = 1) ∧
    (0.1 < v → v < 0.99 → volume_scaled v = Real.exp (LN_50 * v) / 50) ∧
    (v ≤ 0.1 → volume_scaled v = v * LINEAR_SCALING_COEFFICIENT) ∧
    volume_scaled 0.05 = 0.05 * LINEAR_SCALING_COEFFICIENT := by
  refine ⟨?_, ?_, ?_, ?_, ?_, ?_, ?_⟩
  · simp [set_volume_stream, h]
  · simp [set_volume_stream, h]
  · simp [set_volume_stream, h]
  · intro hv
    unfold volume_scaled
    rw [if_pos hv]
  · intro h1 h2
    unfold volume_scaled
    rw [if_neg (by linarith), if_pos h1]
  · intro hv
    unfold volume_scaled
    rw [if_neg (by intro hc; linarith), if_neg (by intro hc; linarith)]
  · unfold volume_scaled
    rw [if_neg (by norm_num), if_neg (by norm_num)]

/-- C7 witness. -/
theorem set_volume_scaled_vs_raw_witness :
    (set_volume_stream ⟨true, 1, 1, []⟩ 0.05).stream_volume
        = volume_scaled 0.05 ∧
      (set_volume_stream ⟨true, 1, 1, []⟩ 0.05).last_volume
        = volume_scaled 0.05 ∧
      (set_volume_stream ⟨true, 1, 1, []⟩ 0.05).volume_events
        = [] ++ [0.05] ∧
      ((0.99 : ℝ) ≤ 0.05 → volume_scaled 0.05 = 1) ∧
      ((0.1 : ℝ) < 0.05 → (0.05 : ℝ) < 0.99 →
        volume_scaled 0.05 = Real.exp (LN_50 * 0.05) / 50) ∧
      ((0.05 : ℝ) ≤ 0.1 →
        volume_scaled 0.05 = 0.05 * LINEAR_SCALING_COEFFICIENT) ∧
      volume_scaled 0.05 = 0.05 * LINEAR_SCALING_COEFFICIENT :=
  set_volume_scaled_vs_raw ⟨true, 1, 1, []⟩ 0.05 rfl

/-- C5: with shuffle off and the pointer inside the queue, toggling
shuffle twice restores a queue that is a permutation of the original
(in fact equal to it) with the same item at the previously-current
index queue_next - 1, for every rng permutation of the unplayed tail. -/
theorem shuffle_round_trip (s : PlaybackThread)
    (sigma sigma2 : List QueueItemData → List QueueItemData)
    (hsigma : ∀ l, (sigma l).Perm l)
    (hshuf : s.shuffle = false) (hk : s.queue_next ≤ s.queue.length) :
    (toggle_shuffle (toggle_shuffle s sigma) sigma2).queue.Perm s.queue ∧
    (0 < s.queue_next →
      (toggle_shuffle (toggle_shuffle s sigma) sigma2).queue[s.queue_next - 1]?
        = s.queue[s.queue_next - 1]?) := by
  have hon := toggle_shuffle_on_fields s sigma hshuf
  have hoff := toggle_shuffle_off_fields (toggle_shuffle s sigma) sigma2 hon.1
  have hq : (toggle_shuffle (toggle_shuffle s sigma) sigma2).queue
      = s.queue := by
    rw [hoff.1, hon.2.1]
  rw [hq]
  exact ⟨List.Perm.refl _, fun _ => rfl⟩

/-- C5 witness. -/
theorem shuffle_round_trip_witness :
    (toggle_shuffle (toggle_shuffle
        (play (initialState ⟨false, false⟩ [⟨1⟩, ⟨2⟩])) id) id).queue.Perm
      (play (initialState ⟨false, false⟩ [⟨1⟩, ⟨2⟩])).queue ∧
    (0 < (play (initialState ⟨false, false⟩ [⟨1⟩, ⟨2⟩])).queue_next →
      (toggle_shuffle (toggle_shuffle
          (play (initialState ⟨false, false⟩ [⟨1⟩, ⟨2⟩])) id) id).queue[
        (play (initialState ⟨false, false⟩ [⟨1⟩, ⟨2⟩])).queue_next - 1]?
        = (play (initialState ⟨false, false⟩ [⟨1⟩, ⟨2⟩])).queue[
            (play (initialState ⟨false, false⟩ [⟨1⟩, ⟨2⟩])).queue_next - 1]?) :=
  shuffle_round_trip _ id id (fun l => List.Perm.refl l) (by decide)
    (by decide)

/-- C3: end-of-track runs next(user_initiated = false): RepeatingOne
re-opens the same index; otherwise a remaining item is opened and the
pointer advanced; at the end of the queue, Repeating reshuffles (under
shuffle) and jumps to index 0, while NotRepeating stops; and the spec
scenario for queue [A,B,C] yields SongChanged A, B, C then
StateChanged(Stopped). -/
theorem eof_advances_and_stops :
    (∀ (s : PlaybackThread)
        (sigma : List QueueItemData → List QueueItemData),
      s.repeat_state = .RepeatingOne →
      (handleTrackEnd s sigma).media_open
          = some (s.queue.getD (s.queue_next - 1) ⟨0⟩).path ∧
        (handleTrackEnd s sigma).queue_next = s.queue_next) ∧
    (∀ (s : PlaybackThread)
        (sigma : List QueueItemData → List QueueItemData),
      s.repeat_state ≠ .RepeatingOne →
      s.queue_next < s.queue.length →
      (handleTrackEnd s sigma).media_open
          = some (s.queue.getD s.queue_next ⟨0⟩).path ∧
        (handleTrackEnd s sigma).queue_next = s.queue_next + 1) ∧
    (∀ (s : PlaybackThread)
        (sigma : List QueueItemData → List QueueItemData),
      s.repeat_state = .Repeating →
      s.queue.length ≤ s.queue_next → s.shuffle = false → s.queue ≠ [] →
      (handleTrackEnd s sigma).media_open
          = some (s.queue.getD 0 ⟨0⟩).path ∧
        (handleTrackEnd s sigma).queue_next = 1) ∧
    (∀ (s : PlaybackThread)
        (sigma : List QueueItemData → List QueueItemData),
      s.repeat_state = .Repeating →
      s.queue.length ≤ s.queue_next → s.shuffle = true →
      sigma s.queue ≠ [] →
      (handleTrackEnd s sigma).queue = sigma s.queue ∧
        (handleTrackEnd s sigma).media_open
          = some ((sigma s.queue).getD 0 ⟨0⟩).path ∧
        (handleTrackEnd s sigma).queue_next = 1) ∧
    (∀ (s : PlaybackThread)
        (sigma : List QueueItemData → List QueueItemData),
      s.repeat_state = .NotRepeating →
      s.queue.length ≤ s.queue_next →
      (handleTrackEnd s sigma).state = .Stopped) ∧
    (scenarioStart.queue_next = 1 ∧
      scenarioStart.media_open = some 1 ∧
      scenarioEnd.state = .Stopped ∧
      [PlaybackEvent.SongChanged 1, .SongChanged 2, .SongChanged 3,
          .StateChanged .Stopped].Sublist scenarioEnd.events) := by
  refine ⟨?_, ?_, ?_, ?_, ?_, by decide⟩
  · intro s sigma h1
    unfold handleTrackEnd next
    rw [if_pos h1]
    simp
  · intro s sigma h1 h2
    unfold handleTrackEnd next
    rw [if_neg h1, if_pos h2]
    simp
  · intro s sigma h1 h2 h3 h4
    unfold handleTrackEnd next
    rw [if_neg (by simp [h1]), if_neg (Nat.not_lt.mpr h2), if_pos rfl,
      if_pos h1]
    simp only [h3, Bool.false_eq_true, if_false]
    unfold jump
    rw [if_pos (List.length_pos.mpr h4)]
    simp
  · intro s sigma h1 h2 h3 h4
    unfold handleTrackEnd next
    rw [if_neg (by simp [h1]), if_neg (Nat.not_lt.mpr h2), if_pos rfl,
      if_pos h1]
    simp only [h3, if_true]
    unfold jump
    rw [if_pos (by simp only [emit_queue]; exact List.length_pos.mpr h4)]
    simp
  · intro s sigma h1 h2
    unfold handleTrackEnd next
    rw [if_neg (by simp [h1]), if_neg (Nat.not_lt.mpr h2), if_pos rfl,
      if_neg (by simp [h1])]
    simp [stop]

/-- C3 witness. -/
theorem eof_advances_and_stops_witness :
    (handleTrackEnd scenarioStart id).media_open
        = some ((scenarioStart.queue.getD scenarioStart.queue_next ⟨0⟩).path) ∧
      (handleTrackEnd scenarioStart id).queue_next
        = scenarioStart.queue_next + 1 :=
  eof_advances_and_stops.2.1 scenarioStart id (by decide) (by decide)

/-! Numeric facts about the volume curve. -/

theorem LN_50_nonneg : (0 : ℝ) ≤ LN_50 := by
  unfold LN_50
  norm_num

theorem coeff_nonneg : (0 : ℝ) ≤ LINEAR_SCALING_COEFFICIENT := by
  unfold LINEAR_SCALING_COEFFICIENT
  norm_num

/-- Lower bound on the exponential at the 0.1 junction, via nine terms
of the Taylor series. -/
theorem exp_junction_lb :
    (1.478757635825 : ℝ) ≤ Real.exp 0.391202300543 := by
  have hsum : ∑ i ∈ Finset.range 9, (0.391202300543 : ℝ) ^ i / i.factorial
      ≤ Real.exp 0.391202300543 :=
    Real.sum_le_exp_of_nonneg (by norm_num) 9
  refine le_trans ?_ hsum
  simp only [Finset.sum_range_succ, Finset.sum_range_zero]
  norm_num [Nat.factorial]

/-- Upper bound on the exponential at the 0.99 junction:
exp(LN_50 times 0.99) is below 50 (about 48.08), via a quartered
argument and the series tail bound. -/
theorem exp_junction_ub : Real.exp (LN_50 * 0.99) ≤ 50 := by
  have hq0 : (0 : ℝ) ≤ 0.968225693843925 := by norm_num
  have hq1 : (0.968225693843925 : ℝ) ≤ 1 := by norm_num
  have hb := @Real.exp_bound' 0.968225693843925 hq0 hq1 10 (by norm_num)
  have hBle : (∑ m ∈ Finset.range 10,
        (0.968225693843925 : ℝ) ^ m / m.factorial)
      + (0.968225693843925 : ℝ) ^ 10 * (10 + 1)
        / (Nat.factorial 10 * 10) ≤ 2.6334 := by
    simp only [Finset.sum_range_succ, Finset.sum_range_zero]
    norm_num [Nat.factorial]
  have hexpq : Real.exp 0.968225693843925 ≤ 2.6334 := le_trans hb hBle
  have hmul : LN_50 * 0.99 = ((4 : ℕ) : ℝ) * 0.968225693843925 := by
    unfold LN_50
    push_cast
    norm_num
  rw [hmul, Real.exp_nat_mul]
  calc Real.exp 0.968225693843925 ^ 4
      ≤ (2.6334 : ℝ) ^ 4 :=
        pow_le_pow_left (Real.exp_nonneg _) hexpq 4
    _ ≤ 50 := by norm_num

/-- The exponential branch of the curve stays at or below 1. -/
theorem volume_exp_branch_le_one {v : ℝ} (hv : v ≤ 0.99) :
    Real.exp (LN_50 * v) / 50 ≤ 1 := by
  have h1 : Real.exp (LN_50 * v) ≤ Real.exp (LN_50 * 0.99) :=
    Real.exp_le_exp.mpr (mul_le_mul_of_nonneg_left hv LN_50_nonneg)
  have h2 := exp_junction_ub
  linarith

/-- The linear floor at 0.1 sits at or below the exponential branch. -/
theorem volume_junction_low :
    (0.1 : ℝ) * LINEAR_SCALING_COEFFICIENT ≤ Real.exp (LN_50 * 0.1) / 50 := by
  have hL : LN_50 * 0.1 = (0.391202300543 : ℝ) := by
    unfold LN_50
    norm_num
  rw [hL]
  have := exp_junction_lb
  unfold LINEAR_SCALING_COEFFICIENT
  linarith

/-- C8: the volume curve maps 0 to 0 and 1 to 1 and is monotonically
non-decreasing on the unit interval. -/
theorem volume_curve_props :
    volume_scaled 0 = 0 ∧ volume_scaled 1 = 1 ∧
    ∀ u v : ℝ, 0 ≤ u → u ≤ v → v ≤ 1 → volume_scaled u ≤ volume_scaled v := by
  refine ⟨?_, ?_, ?_⟩
  · unfold volume_scaled
    rw [if_neg (by norm_num), if_neg (by norm_num)]
    ring
  · unfold volume_scaled
    rw [if_pos (by norm_num)]
  · intro u v hu huv hv1
    unfold volume_scaled
    split_ifs with h1 h2 h3 h4 h5 h6 h7 h8
    · exact le_refl 1
    · exact absurd (le_trans h1 huv) h2
    · exact absurd (le_trans h1 huv) h2
    · exact volume_exp_branch_le_one (by linarith)
    · exact (div_le_div_iff_of_pos_right (by norm_num)).mpr
        (Real.exp_le_exp.mpr (mul_le_mul_of_nonneg_left huv LN_50_nonneg))
    · exact absurd (lt_of_lt_of_le h4 huv) h6
    · have hu1 : u ≤ 0.1 := le_of_not_lt h4
      have hc : u * LINEAR_SCALING_COEFFICIENT
          ≤ 0.1 * LINEAR_SCALING_COEFFICIENT :=
        mul_le_mul_of_nonneg_right hu1 coeff_nonneg
      unfold LINEAR_SCALING_COEFFICIENT at hc ⊢
      linarith
    · have hu1 : u ≤ 0.1 := le_of_not_lt h4
      calc u * LINEAR_SCALING_COEFFICIENT
          ≤ 0.1 * LINEAR_SCALING_COEFFICIENT :=
            mul_le_mul_of_nonneg_right hu1 coeff_nonneg
        _ ≤ Real.exp (LN_50 * 0.1) / 50 := volume_junction_low
        _ ≤ Real.exp (LN_50 * v) / 50 :=
            (div_le_div_iff_of_pos_right (by norm_num)).mpr
              (Real.exp_le_exp.mpr
                (mul_le_mul_of_nonneg_left (le_of_lt h8) LN_50_nonneg))
    · exact mul_le_mul_of_nonneg_right huv coeff_nonneg

/-- C8 witness. -/
theorem volume_curve_props_witness :
    volume_scaled 0 ≤ volume_scaled 1 :=
  volume_curve_props.2.2 0 1 le_rfl (by norm_num) le_rfl

/-! Preservation of the queue-pointer invariant, handler by handler. -/

theorem getD_path_eq {l : List QueueItemData} {i : Nat} (h : i < l.length) :
    (l[i]?).map (fun x => x.path) = some ((l.getD i ⟨0⟩).path) := by
  rw [List.getElem?_eq_getElem h, List.getD_eq_getElem?_getD,
    List.getElem?_eq_getElem h]
  rfl

theorem inv_of_fields_eq {s t : PlaybackThread} (h : QueuePointerInv s)
    (hq : t.queue = s.queue) (hn : t.queue_next = s.queue_next)
    (hm : t.media_open = s.media_open) : QueuePointerInv t := by
  unfold QueuePointerInv at h ⊢
  rw [hq, hn, hm]
  exact h

theorem inv_stop {s : PlaybackThread} (h : QueuePointerInv s) :
    QueuePointerInv (stop s) := by
  refine ⟨Or.inl ?_, ?_⟩
  · simp [stop]
  · show (stop s).queue_next ≤ (stop s).queue.length
    simp only [stop, emit_queue, emit_queue_next]
    exact h.2

theorem inv_jump_lt {s : PlaybackThread} {i : Nat}
    (hlt : i < s.queue.length) : QueuePointerInv (jump s i) := by
  unfold jump
  rw [if_pos hlt]
  refine ⟨Or.inr ⟨Nat.succ_pos _, ?_⟩, ?_⟩
  · simp only [emit_queue_next, emit_queue, emit_media_open,
      openTrack_queue, openTrack_media_open, Nat.add_sub_cancel]
    exact getD_path_eq hlt
  · simp only [emit_queue_next, emit_queue, openTrack_queue]
    exact hlt

theorem inv_jump {s : PlaybackThread} (h : QueuePointerInv s) (i : Nat) :
    QueuePointerInv (jump s i) := by
  by_cases hlt : i < s.queue.length
  · exact inv_jump_lt hlt
  · unfold jump
    rw [if_neg hlt]
    exact h

theorem seek_fields (s : PlaybackThread) (t : Rat) :
    (seek s t).queue = s.queue ∧ (seek s t).queue_next = s.queue_next ∧
    (seek s t).media_open = s.media_open ∧ (seek s t).state = s.state := by
  unfold seek
  cases h : s.media_open
  · exact ⟨rfl, rfl, h, rfl⟩
  · simp

theorem inv_seek {s : PlaybackThread} (h : QueuePointerInv s) (t : Rat) :
    QueuePointerInv (seek s t) := by
  have hf := seek_fields s t
  exact inv_of_fields_eq h hf.1 hf.2.1 hf.2.2.1

theorem inv_pause {s : PlaybackThread} (h : QueuePointerInv s) :
    QueuePointerInv (pause s) := by
  unfold pause
  split_ifs <;> first
    | exact h
    | exact inv_of_fields_eq h rfl rfl rfl

theorem inv_set_volume {s : PlaybackThread} (h : QueuePointerInv s)
    (v : Rat) : QueuePointerInv (set_volume_cmd s v) := by
  unfold set_volume_cmd
  split
  · exact inv_of_fields_eq h rfl rfl rfl
  · exact h

theorem inv_set_repeat {s : PlaybackThread} (h : QueuePointerInv s)
    (v : RepeatState) : QueuePointerInv (set_repeat s v) := by
  unfold set_repeat
  exact inv_of_fields_eq h rfl rfl rfl

theorem getElem?_append_first {α : Type} (l : List α) (x : α) (r : List α) :
    (l ++ (x :: r))[l.length]? = some x := by
  rw [List.getElem?_append_right (le_refl _)]
  simp

theorem inv_queue_extend {s t : PlaybackThread} (h : QueuePointerInv s)
    (ext : List QueueItemData)
    (hq : t.queue = s.queue ++ ext) (hn : t.queue_next = s.queue_next)
    (hm : t.media_open = s.media_open) : QueuePointerInv t := by
  rcases h with ⟨h1, h2⟩
  constructor
  · cases hmo : s.media_open with
    | none => exact Or.inl (by rw [hm, hmo])
    | some p =>
      rcases h1 with h1 | ⟨hpos, hget⟩
      · rw [h1] at hmo
        exact absurd hmo (by simp)
      · have hlt : s.queue_next - 1 < s.queue.length := by
          by_contra hge
          rw [List.getElem?_eq_none (Nat.le_of_not_lt hge)] at hget
          rw [hmo] at hget
          exact absurd hget (by simp)
        right
        refine ⟨by rw [hn]; exact hpos, ?_⟩
        rw [hn, hm, hq, List.getElem?_append_left hlt]
        exact hget
  · rw [hn, hq, List.length_append]
    exact le_trans h2 (Nat.le_add_right _ _)

theorem inv_play {s : PlaybackThread} (h : QueuePointerInv s) :
    QueuePointerInv (play s) := by
  unfold play
  dsimp only
  split
  · exact h
  by_cases hp : s.state = .Paused
  · rw [if_pos hp]
    by_cases hh : s.has_stream = true
    · rw [if_pos hh]
      split
      · exact inv_of_fields_eq h rfl rfl rfl
      · rw [if_neg (by simp)]
        exact inv_of_fields_eq h rfl rfl rfl
    · rw [if_neg hh]
      split
      · exact inv_of_fields_eq h rfl rfl rfl
      · rw [if_neg (by simp)]
        exact inv_of_fields_eq h rfl rfl rfl
  · rw [if_neg hp]
    split
    · exact h
    case _ q0 tail heq =>
      by_cases hst : s.state = .Stopped
      · rw [if_pos hst]
        refine ⟨Or.inr ⟨Nat.one_pos, ?_⟩, ?_⟩
        · simp only [emit_queue, emit_queue_next, emit_media_open,
            openTrack_queue, openTrack_media_open, heq]
          simp
        · show 1 ≤ _
          simp only [emit_queue, emit_queue_next, openTrack_queue, heq]
          simp
      · rw [if_neg hst]
        exact h

theorem inv_toggle_play_pause {s : PlaybackThread} (h : QueuePointerInv s) :
    QueuePointerInv (toggle_play_pause s) := by
  unfold toggle_play_pause
  cases s.state
  · exact h
  · exact inv_pause h
  · exact inv_play h

theorem inv_queue_add {s : PlaybackThread} (h : QueuePointerInv s)
    (item : QueueItemData) : QueuePointerInv (queue_add s item) := by
  unfold queue_add
  dsimp only
  have stopped_case : ∀ t : PlaybackThread, t.queue = s.queue ++ [item] →
      QueuePointerInv (emit (emit
        { openTrack t item.path with queue_next := s.queue.length + 1 }
        (.QueuePositionChanged s.queue.length)) .QueueUpdated) := by
    intro t ht
    refine ⟨Or.inr ⟨Nat.succ_pos _, ?_⟩, ?_⟩
    · simp only [emit_queue, emit_queue_next, emit_media_open,
        openTrack_queue, openTrack_media_open, Nat.add_sub_cancel, ht]
      rw [show (s.queue ++ [item]) = s.queue ++ (item :: []) from rfl,
        getElem?_append_first]
      rfl
    · simp only [emit_queue, emit_queue_next, openTrack_queue, ht,
        List.length_append]
      simp
  by_cases hsh : s.shuffle = true
  · rw [if_pos hsh]
    by_cases hst : s.state = .Stopped
    · rw [if_pos hst]
      exact stopped_case _ rfl
    · rw [if_neg hst]
      exact inv_queue_extend h [item] rfl rfl rfl
  · rw [if_neg hsh]
    by_cases hst : s.state = .Stopped
    · rw [if_pos hst]
      exact stopped_case _ rfl
    · rw [if_neg hst]
      exact inv_queue_extend h [item] rfl rfl rfl

theorem inv_queue_list {s : PlaybackThread} (h : QueuePointerInv s)
    (paths : List QueueItemData)
    (sigma : List QueueItemData → List QueueItemData)
    (hsafe : ¬ (paths ≠ [] ∧ s.shuffle = true ∧ s.state = .Stopped)) :
    QueuePointerInv (queue_list s paths sigma) := by
  unfold queue_list
  dsimp only
  cases hp : paths with
  | nil =>
    simp only [List.head?_nil]
    by_cases hsh : s.shuffle = true
    · rw [if_pos hsh]
      exact inv_queue_extend h (sigma []) rfl rfl rfl
    · rw [if_neg hsh]
      exact inv_queue_extend h [] rfl rfl rfl
  | cons p0 rest =>
    simp only [List.head?_cons]
    by_cases hsh : s.shuffle = true
    · rw [if_pos hsh]
      by_cases hst : s.state = .Stopped
      · exact absurd ⟨by simp [hp], hsh, hst⟩ hsafe
      · rw [if_neg hst]
        exact inv_queue_extend h (sigma (p0 :: rest)) rfl rfl rfl
    · rw [if_neg hsh]
      by_cases hst : s.state = .Stopped
      · rw [if_pos hst]
        refine ⟨Or.inr ⟨Nat.succ_pos _, ?_⟩, ?_⟩
        · simp only [emit_queue, emit_queue_next, emit_media_open,
            openTrack_queue, openTrack_media_open, Nat.add_sub_cancel]
          rw [getElem?_append_first]
          rfl
        · simp only [emit_queue, emit_queue_next, openTrack_queue,
            List.length_append]
          simp
      · rw [if_neg hst]
        exact inv_queue_extend h (p0 :: rest) rfl rfl rfl

theorem getLast_path {l : List QueueItemData} (hne : l ≠ []) :
    (l[l.length - 1]?).map (fun x => x.path)
      = some ((l.getLastD ⟨0⟩).path) := by
  rw [← List.getLast?_eq_getElem?, List.getLastD_eq_getLast?]
  cases hq : l.getLast? with
  | none => exact absurd (List.getLast?_eq_none_iff.mp hq) hne
  | some a => rfl

theorem inv_previous {s : PlaybackThread} (h : QueuePointerInv s)
    (hpf : PanicFree s .Previous) : QueuePointerInv (previous s) := by
  unfold previous
  dsimp only
  by_cases h1 : s.state = .Playing ∧
      s.playback_settings.prev_track_jump_first = true ∧ 5 < s.last_timestamp
  · rw [if_pos h1]
    exact inv_seek h 0
  · rw [if_neg h1]
    by_cases h2 : s.state = .Stopped ∧ s.queue ≠ []
    · rw [if_pos h2]
      refine ⟨Or.inr ⟨?_, ?_⟩, ?_⟩
      · simp only [emit_queue_next, openTrack_queue_next]
        exact List.length_pos.mpr h2.2
      · simp only [emit_queue, emit_queue_next, emit_media_open,
          openTrack_queue, openTrack_media_open, openTrack_queue_next]
        exact getLast_path h2.2
      · simp only [emit_queue, emit_queue_next, openTrack_queue,
          openTrack_queue_next]
        exact le_refl _
    · rw [if_neg h2]
      by_cases h3 : 1 < s.queue_next
      · rw [if_pos h3]
        have hlt : s.queue_next - 2 < s.queue.length := hpf h1 h2 h3
        refine ⟨Or.inr ⟨?_, ?_⟩, ?_⟩
        · simp only [openTrack_queue_next, emit_queue_next]
          omega
        · simp only [openTrack_queue, openTrack_queue_next,
            openTrack_media_open, emit_queue, emit_queue_next]
          rw [show s.queue_next - 1 - 1 = s.queue_next - 2 from by omega]
          exact getD_path_eq hlt
        · simp only [openTrack_queue, openTrack_queue_next, emit_queue,
            emit_queue_next]
          omega
      · rw [if_neg h3]
        exact h

theorem findIdx_path_lt {l : List QueueItemData} {p : Path}
    (hmem : p ∈ l.map (fun x => x.path)) :
    l.findIdx (fun x => x.path == p) < l.length := by
  apply List.findIdx_lt_length_of_exists
  rcases List.mem_map.mp hmem with ⟨x, hx, hpx⟩
  exact ⟨x, hx, by simp [hpx]⟩

theorem findIdx_path_get {l : List QueueItemData} {p : Path}
    (hmem : p ∈ l.map (fun x => x.path)) :
    (l[l.findIdx (fun x => x.path == p)]?).map (fun x => x.path)
      = some p := by
  have hlt := findIdx_path_lt hmem
  rw [List.getElem?_eq_getElem hlt]
  have hfi := @List.findIdx_getElem _ (fun x => x.path == p) l hlt
  simp only [beq_iff_eq] at hfi
  simp [hfi]

theorem toggle_shuffle_off_queue_next (s : PlaybackThread)
    (sigma : List QueueItemData → List QueueItemData)
    (h : s.shuffle = true) :
    (0 < s.queue_next →
      (toggle_shuffle s sigma).queue_next
        = s.original_queue.findIdx
            (fun x => x.path == (s.queue.getD (s.queue_next - 1) ⟨0⟩).path)
          + 1) ∧
    (s.queue_next = 0 → (toggle_shuffle s sigma).queue_next = 0) := by
  unfold toggle_shuffle
  rw [if_pos h]
  dsimp only
  constructor
  · intro h0
    rw [if_pos h0, if_pos h0]
    split <;> rfl
  · intro h0
    rw [if_neg (show ¬ 0 < s.queue_next from by omega),
      if_neg (show ¬ 0 < s.queue_next from by omega)]
    split <;> exact h0

theorem inv_toggle_shuffle {s : PlaybackThread} (h : QueuePointerInv s)
    (sigma : List QueueItemData → List QueueItemData)
    (hsigma : ∀ l, (sigma l).Perm l)
    (hpf : PanicFree s .ToggleShuffle) :
    QueuePointerInv (toggle_shuffle s sigma) := by
  by_cases hsh : s.shuffle = true
  · have hf := toggle_shuffle_off_fields s sigma hsh
    have hqn := toggle_shuffle_off_queue_next s sigma hsh
    have hpf2 := hpf
    unfold PanicFree at hpf2
    rw [if_pos hsh] at hpf2
    by_cases h0 : 0 < s.queue_next
    · obtain ⟨hlt, hmem⟩ := hpf2 h0
      have hidx := findIdx_path_lt hmem
      constructor
      · cases hmo : s.media_open with
        | none => exact Or.inl (by rw [hf.2.2.2.1, hmo])
        | some p =>
          right
          have hgd : (s.queue.getD (s.queue_next - 1) ⟨0⟩).path = p := by
            rcases h.1 with hn | ⟨_, hget⟩
            · rw [hn] at hmo
              exact absurd hmo (by simp)
            · rw [hmo] at hget
              rw [List.getElem?_eq_getElem hlt] at hget
              rw [List.getD_eq_getElem?_getD, List.getElem?_eq_getElem hlt]
              simpa using hget
          have hmem2 : p ∈ s.original_queue.map (fun x => x.path) :=
            hgd ▸ hmem
          refine ⟨?_, ?_⟩
          · rw [hqn.1 h0]
            exact Nat.succ_pos _
          · rw [hqn.1 h0, hf.1, hf.2.2.2.1, hmo, Nat.add_sub_cancel, hgd]
            exact findIdx_path_get hmem2
      · rw [hqn.1 h0, hf.1]
        exact Nat.succ_le_of_lt hidx
    · have hz : s.queue_next = 0 := by omega
      constructor
      · cases hmo : s.media_open with
        | none => exact Or.inl (by rw [hf.2.2.2.1, hmo])
        | some p =>
          rcases h.1 with hn | ⟨hpos, _⟩
          · rw [hn] at hmo
            exact absurd hmo (by simp)
          · exact absurd hpos (by omega)
      · rw [hqn.2 hz, hf.1]
        exact Nat.zero_le _
  · have hsh2 : s.shuffle = false := by
      cases hx : s.shuffle
      · rfl
      · exact absurd hx hsh
    have hf := toggle_shuffle_on_fields s sigma hsh2
    have hpf2 := hpf
    unfold PanicFree at hpf2
    rw [if_neg hsh] at hpf2
    have hlen : (toggle_shuffle s sigma).queue.length = s.queue.length := by
      rw [hf.2.2.1, List.length_append, ((hsigma _).length_eq),
        List.length_take, List.length_drop]
      omega
    constructor
    · cases hmo : s.media_open with
      | none => exact Or.inl (by rw [hf.2.2.2.2.1, hmo])
      | some p =>
        rcases h.1 with hn | ⟨hpos, hget⟩
        · rw [hn] at hmo
          exact absurd hmo (by simp)
        · right
          refine ⟨by rw [hf.2.2.2.1]; exact hpos, ?_⟩
          rw [hf.2.2.2.1, hf.2.2.1, hf.2.2.2.2.1,
            List.getElem?_append_left (by
              rw [List.length_take]
              omega),
            List.getElem?_take_of_lt (by omega)]
          exact hget
    · rw [hf.2.2.2.1, hlen]
      exact hpf2

theorem inv_replace_queue {s : PlaybackThread} (h : QueuePointerInv s)
    (paths : List QueueItemData)
    (sigma : List QueueItemData → List QueueItemData)
    (hsigma : ∀ l, (sigma l).Perm l)
    (hne : paths ≠ []) : QueuePointerInv (replace_queue s paths sigma) := by
  unfold replace_queue
  dsimp only
  by_cases hsh : s.shuffle = true
  · rw [if_pos hsh]
    have hlen : (0:Nat) < (sigma paths).length := by
      rw [(hsigma paths).length_eq]
      exact List.length_pos.mpr hne
    exact inv_of_fields_eq (inv_jump_lt hlen) rfl rfl rfl
  · rw [if_neg hsh]
    have hlen : (0:Nat) < paths.length := List.length_pos.mpr hne
    exact inv_of_fields_eq (inv_jump_lt hlen) rfl rfl rfl

theorem inv_jump_unshuffled {s : PlaybackThread} (h : QueuePointerInv s)
    (i : Nat) : QueuePointerInv (jump_unshuffled s i) := by
  unfold jump_unshuffled
  dsimp only
  split
  · exact inv_jump h i
  · split
    · exact inv_jump h _
    · exact h

theorem inv_next {s : PlaybackThread} (h : QueuePointerInv s)
    (user : Bool) (sigma : List QueueItemData → List QueueItemData)
    (hsigma : ∀ l, (sigma l).Perm l)
    (hpf : NextPanicFree s) : QueuePointerInv (next s user sigma) := by
  unfold next
  dsimp only
  by_cases h1 : s.repeat_state = .RepeatingOne
  · rw [if_pos h1]
    obtain ⟨hpos, hlt⟩ := hpf h1
    refine ⟨Or.inr ⟨?_, ?_⟩, ?_⟩
    · simpa using hpos
    · simp only [openTrack_queue, openTrack_queue_next, openTrack_media_open]
      exact getD_path_eq hlt
    · simp only [openTrack_queue, openTrack_queue_next]
      exact h.2
  · rw [if_neg h1]
    by_cases h2 : s.queue_next < s.queue.length
    · rw [if_pos h2]
      refine ⟨Or.inr ⟨Nat.succ_pos _, ?_⟩, ?_⟩
      · simp only [emit_queue, emit_queue_next, emit_media_open,
          openTrack_queue, openTrack_media_open, openTrack_queue_next,
          Nat.add_sub_cancel]
        exact getD_path_eq h2
      · simp only [emit_queue, emit_queue_next, openTrack_queue,
          openTrack_queue_next]
        exact h2
    · rw [if_neg h2]
      by_cases h3 : user = false
      · rw [if_pos h3]
        by_cases h4 : s.repeat_state = .Repeating
        · rw [if_pos h4]
          by_cases h5 : s.shuffle = true
          · rw [if_pos h5]
            by_cases h6 : 0 < (sigma s.queue).length
            · exact inv_jump_lt h6
            · apply inv_jump
              have hq0 : s.queue.length = 0 := by
                have := (hsigma s.queue).length_eq
                omega
              have hqn0 : s.queue_next = 0 := by
                have := h.2
                omega
              constructor
              · rcases h.1 with hn | ⟨hpos, _⟩
                · exact Or.inl hn
                · exact absurd hpos (by omega)
              · simp only [emit_queue, emit_queue_next]
                omega
          · rw [if_neg h5]
            exact inv_jump h 0
        · rw [if_neg h4]
          exact inv_stop h
      · rw [if_neg h3]
        exact h

end Hummingbird

namespace Hummingbird

theorem safestep_inv {s t : PlaybackThread} (h : QueuePointerInv s)
    (hs : SafeStep s t) : QueuePointerInv t := by
  cases hs with
  | cmd c sigma hsigma hpf hsafe hdis =>
    cases c with
    | Play =>
      simp only [dispatch, Option.some.injEq] at hdis
      subst hdis
      exact inv_play h
    | Pause =>
      simp only [dispatch, Option.some.injEq] at hdis
      subst hdis
      exact inv_pause h
    | TogglePlayPause =>
      simp only [dispatch, Option.some.injEq] at hdis
      subst hdis
      exact inv_toggle_play_pause h
    | Open path => exact absurd trivial hsafe
    | Queue item =>
      simp only [dispatch, Option.some.injEq] at hdis
      subst hdis
      exact inv_queue_add h item
    | QueueList items =>
      simp only [dispatch, Option.some.injEq] at hdis
      subst hdis
      exact inv_queue_list h items sigma hsafe
    | InsertAt item pos => exact Option.noConfusion hdis
    | InsertListAt items pos => exact Option.noConfusion hdis
    | Next =>
      simp only [dispatch, Option.some.injEq] at hdis
      subst hdis
      exact inv_next h true sigma hsigma hpf
    | Previous =>
      simp only [dispatch, Option.some.injEq] at hdis
      subst hdis
      exact inv_previous h hpf
    | ClearQueue => exact absurd trivial hsafe
    | Jump index =>
      simp only [dispatch, Option.some.injEq] at hdis
      subst hdis
      exact inv_jump h index
    | JumpUnshuffled index =>
      simp only [dispatch, Option.some.injEq] at hdis
      subst hdis
      exact inv_jump_unshuffled h index
    | Seek seconds =>
      simp only [dispatch, Option.some.injEq] at hdis
      subst hdis
      exact inv_seek h seconds
    | SetVolume volume =>
      simp only [dispatch, Option.some.injEq] at hdis
      subst hdis
      exact inv_set_volume h volume
    | ReplaceQueue items =>
      simp only [dispatch, Option.some.injEq] at hdis
      subst hdis
      exact inv_replace_queue h items sigma hsigma hsafe
    | Stop =>
      simp only [dispatch, Option.some.injEq] at hdis
      subst hdis
      exact inv_stop h
    | ToggleShuffle =>
      simp only [dispatch, Option.some.injEq] at hdis
      subst hdis
      exact inv_toggle_shuffle h sigma hsigma hpf
    | SetRepeat state =>
      simp only [dispatch, Option.some.injEq] at hdis
      subst hdis
      exact inv_set_repeat h state
    | RemoveItem index => exact Option.noConfusion hdis
    | MoveItem a b => exact Option.noConfusion hdis
  | eof sigma hsigma hplay hmedia hpf =>
    exact inv_next h false sigma hsigma hpf

/-- C6 counterexample: processing Open(path) never touches the queue or
queue_next, so from an empty-queue startup it reaches a state with a
track open, queue_next = 0 and no queue item before the pointer,
violating the claimed invariant. -/
theorem queue_pointer_inv_cex :
    Reachable ⟨false, false⟩ []
        (openTrack (initialState ⟨false, false⟩ []) 7) ∧
      ¬ QueuePointerInv (openTrack (initialState ⟨false, false⟩ []) 7) := by
  constructor
  · exact Reachable.step Reachable.init
      (Step.cmd (.Open 7) id (fun l => List.Perm.refl l) trivial rfl)
  · decide

/-- C6 (amended): in every engine state reachable by commands and
end-of-track events, excluding the Open command, ClearQueue,
ReplaceQueue with an empty list, and QueueList received while Stopped
with shuffle active, whenever a track is open the item at index
queue_next - 1 is the open one, and queue_next never exceeds the queue
length. -/
theorem queue_pointer_invariant (settings : PlaybackSettings)
    (q0 : List QueueItemData) (s : PlaybackThread)
    (hr : ReachableSafe settings q0 s) : QueuePointerInv s := by
  induction hr with
  | init => exact ⟨Or.inl rfl, Nat.zero_le _⟩
  | step hr hs ih => exact safestep_inv ih hs

/-- C6 witness. -/
theorem queue_pointer_invariant_witness :
    QueuePointerInv (initialState ⟨false, false⟩ [⟨1⟩]) :=
  queue_pointer_invariant ⟨false, false⟩ [⟨1⟩] _ ReachableSafe.init

end Hummingbird
